import Mathlib

set_option maxHeartbeats 1000000

/-!
Shallow embedding of the PLCO build scripts (`src/build_index.py` and
`src/build_local.py`): the index-data aggregation (`create_index_file` in both
scripts), the latest-folder selection (`create_latest_folders`), the
documentation-generation driver (`generate_documentation` and the batch loop
in `main`), and the driver's exit-code logic.

Paths are modelled as Lean `String`s holding the same character sequences as
the Python `str` paths; Python `list.sort` (a stable sort) is modelled with
`List.insertionSort`, which is also stable, so the two agree on every total
preorder used by the scripts.
-/

/-- Kinds of Python exception relevant to the scripts: the `AttributeError`
raised by `parts.group(1)` when `re.match` returns `None`, the `ValueError`
raised by `int` on a non-numeric string, and a generic `Exception` standing
for template-compilation, rendering or file-write failures. -/
inductive PyError where
  | attributeError : PyError
  | valueError : PyError
  | exception : PyError
deriving DecidableEq, Repr

/-- Python string comparison (`a <= b`) on the underlying character lists:
lexicographic by Unicode code point. -/
def charsLe : List Char → List Char → Bool
  | [], _ => true
  | _ :: _, [] => false
  | a :: as, b :: bs =>
    if a.toNat < b.toNat then true
    else if b.toNat < a.toNat then false
    else charsLe as bs

/-- Python `a <= b` on strings. -/
def pyStrLe (a b : String) : Bool := charsLe a.data b.data

/-- Python list comparison (`ka <= kb`) on lists of integers, as used to
compare the sort keys `[int(p) for p in name.split('.')]`: lexicographic,
with a strict prefix comparing smaller. -/
def intListLe : List Int → List Int → Bool
  | [], _ => true
  | _ :: _, [] => false
  | a :: as, b :: bs =>
    if a < b then true
    else if b < a then false
    else intListLe as bs

/-- Python `s.split(sep)` for a one-character separator, on the underlying
character list: splitting on every occurrence, keeping empty pieces, with
`"".split(sep) = [""]`. -/
def splitOnChar (sep : Char) : List Char → List (List Char)
  | [] => [[]]
  | c :: rest =>
    if c = sep then [] :: splitOnChar sep rest
    else
      match splitOnChar sep rest with
      | s :: ss => (c :: s) :: ss
      | [] => [[c]]

/-- Python `s.endswith(suffix)`. -/
def pyEndsWith (s suffix : String) : Bool := suffix.data.isSuffixOf s.data

/-- Python `s[0].isdigit()` for the nonempty directory names produced by
`iterdir`; on the (unreachable) empty string the model answers `false`
where Python would raise `IndexError`. -/
def headIsDigit (s : String) : Bool :=
  match s.data with
  | [] => false
  | c :: _ => c.isDigit

/-- Strip leading and trailing whitespace, as Python `int` does before
parsing (ASCII whitespace modelled). -/
def stripWS (cs : List Char) : List Char :=
  ((cs.dropWhile Char.isWhitespace).reverse.dropWhile Char.isWhitespace).reverse

/-- The digit part of a Python integer literal: a nonempty digit sequence in
which single underscores may separate digits (`1_000` is accepted, `1__0`,
`_1` and `1_` are not). -/
def pyDigitsOk : List Char → Bool
  | [] => false
  | [c] => c.isDigit
  | c :: d :: rest =>
    c.isDigit && (if d = '_' then pyDigitsOk rest else pyDigitsOk (d :: rest))

/-- Numeric value of a digit sequence (underscore separators removed). -/
def digitsVal (cs : List Char) : Nat :=
  (cs.filter (fun c => c ≠ '_')).foldl (fun n c => n * 10 + (c.toNat - 48)) 0

/-- Python `int(s)` on a decimal string: strip surrounding whitespace, accept
an optional sign, then a digit sequence with optional single underscore
separators; `none` models the `ValueError` raised on anything else. -/
def pyInt (s : String) : Option Int :=
  match stripWS s.data with
  | '+' :: rest => if pyDigitsOk rest then some ((digitsVal rest : Nat) : Int) else none
  | '-' :: rest => if pyDigitsOk rest then some (-((digitsVal rest : Nat) : Int)) else none
  | cs => if pyDigitsOk cs then some ((digitsVal cs : Nat) : Int) else none

/-- Descending Python string order, the relation used by
`versions.sort(reverse=True)`. -/
def verGe (a b : String) : Prop := pyStrLe b a = true

instance : DecidableRel verGe := fun a b => inferInstanceAs (Decidable (pyStrLe b a = true))

/-- An accumulated artifact set as pushed into the template context:
`{"name": name, "versions": versions}`. -/
structure Ontology where
  name : String
  versions : List String
deriving DecidableEq, Repr

/-- Ascending order on entry names, the key function
`lambda x: x["name"]` used by the final bucket sort. -/
def ontNameLe (a b : Ontology) : Prop := pyStrLe a.name b.name = true

instance : DecidableRel ontNameLe :=
  fun a b => inferInstanceAs (Decidable (pyStrLe a.name b.name = true))

/-- The template-context dictionary `data` with its eight bucket lists. -/
structure IndexData where
  core : List Ontology
  other : List Ontology
  demo : List Ontology
  actor : List Ontology
  observation : List Ontology
  process : List Ontology
  resource : List Ontology
  supplementary : List Ontology
deriving DecidableEq, Repr

/-- The initial `data` dictionary: every bucket empty. -/
def emptyIndexData : IndexData := ⟨[], [], [], [], [], [], [], []⟩

/-- Evaluation of `re.match(f"ontology/{ty}/([^/]*)/([^/]*)", source)`:
the anchored pattern consumes the literal segments `ontology` and the type
tag and captures the next two slash-free segments, so it succeeds exactly
when splitting `source` on `/` yields at least four segments whose first two
are `ontology` and the type tag; the captures are the third and fourth
segments.  `none` models `re.match` returning `None`. -/
def matchParts (ty source : String) : Option (String × String) :=
  match splitOnChar '/' source.data with
  | o :: t :: name :: version :: _ =>
    if o = "ontology".data ∧ t = ty.data then some (⟨name⟩, ⟨version⟩) else none
  | _ => none

/-- `versions.sort(reverse=True)`: stable sort, descending by Python string
comparison. -/
def sortVersionsDesc (l : List String) : List String := l.insertionSort verGe

/-- One `(name, version)` insertion into the accumulation dict `ontologies`,
modelled as an insertion-ordered association list from names to version
lists: create the key with an empty version list when absent
(`if not ontologies.get(name)`), append the version, and re-sort the
version list descending. -/
def addVersion (onts : List (String × List String)) (name version : String) :
    List (String × List String) :=
  let grown := if onts.any (fun p => p.1 == name) then onts else onts ++ [(name, [])]
  grown.map (fun p =>
    if p.1 == name then (p.1, sortVersionsDesc (p.2 ++ [version])) else p)

/-- The scanner loop of `create_index_file` for one type tag: iterate over
the glob results, silently skip paths not ending in `.ttl`, extract
`(name, version)` with `matchParts`, and raise `AttributeError` when the
regex does not match (`parts.group(1)` with `parts = None`). -/
def scanType (ty : String) : List String → List (String × List String) →
    Except PyError (List (String × List String))
  | [], onts => .ok onts
  | source :: rest, onts =>
    if ¬ pyEndsWith source ".ttl" then scanType ty rest onts
    else
      match matchParts ty source with
      | some (name, version) => scanType ty rest (addVersion onts name version)
      | none => .error .attributeError

/-- `for list in data.values(): list.sort(key=lambda x: x["name"])`. -/
def sortBuckets (d : IndexData) : IndexData where
  core := d.core.insertionSort ontNameLe
  other := d.other.insertionSort ontNameLe
  demo := d.demo.insertionSort ontNameLe
  actor := d.actor.insertionSort ontNameLe
  observation := d.observation.insertionSort ontNameLe
  process := d.process.insertionSort ontNameLe
  resource := d.resource.insertionSort ontNameLe
  supplementary := d.supplementary.insertionSort ontNameLe

namespace BuildIndex

/-- Static core-module table of `build_index.py`. -/
def core : List String :=
  ["actorODP", "observation", "processODP", "product", "resourceODP", "location"]

/-- Static actor-tag table of `build_index.py`. -/
def core_actor : List String := ["actorODP"]

/-- Static process-tag table of `build_index.py`. -/
def core_process : List String := ["processODP"]

/-- Static resource-tag table of `build_index.py`. -/
def core_resource : List String := ["resourceODP", "product"]

/-- Static observation-tag table of `build_index.py` (the variable is
spelled `core_obsrvation` there). -/
def core_obsrvation : List String := ["observation"]

/-- Static supplementary-tag table of `build_index.py`. -/
def core_supplementary : List String := ["location"]

/-- The classification of one accumulated entry into the bucket lists
(the body of `for name in ontologies` in `build_index.py`). -/
def classifyOne (ty : String) (d : IndexData) (p : String × List String) : IndexData :=
  let o : Ontology := ⟨p.1, p.2⟩
  if ty = "demo" then { d with demo := d.demo ++ [o] }
  else if p.1 ∈ core then
    let d1 := { d with core := d.core ++ [o] }
    let d2 := if p.1 ∈ core_actor then { d1 with actor := d1.actor ++ [o] } else d1
    let d3 := if p.1 ∈ core_process then { d2 with process := d2.process ++ [o] } else d2
    let d4 := if p.1 ∈ core_resource then { d3 with resource := d3.resource ++ [o] } else d3
    let d5 :=
      if p.1 ∈ core_obsrvation then { d4 with observation := d4.observation ++ [o] } else d4
    if p.1 ∈ core_supplementary then { d5 with supplementary := d5.supplementary ++ [o] } else d5
  else { d with other := d.other ++ [o] }

/-- The data aggregation of `create_index_file` in `build_index.py`: for the
type tags `modules` then `demo`, scan the glob results into the accumulation
dict, classify every accumulated entry into the buckets, and finally sort
every bucket ascending by name.  `paths ty` stands for the list returned by
`glob(f"ontology/{ty}/*/*/*")`. -/
def buildData (paths : String → List String) : Except PyError IndexData := do
  let ontsM ← scanType "modules" (paths "modules") []
  let d1 := ontsM.foldl (classifyOne "modules") emptyIndexData
  let ontsD ← scanType "demo" (paths "demo") []
  let d2 := ontsD.foldl (classifyOne "demo") d1
  pure (sortBuckets d2)

end BuildIndex

namespace BuildLocal

/-- Static core-module table of `build_local.py`. -/
def core : List String :=
  ["actorODP", "observation", "processODP", "product", "resourceODP", "location"]

/-- Static actor-tag table of `build_local.py`. -/
def core_actor : List String := ["actorODP"]

/-- Static process-tag table of `build_local.py`. -/
def core_process : List String := ["processODP"]

/-- Static resource-tag table of `build_local.py`. -/
def core_resource : List String := ["resourceODP", "product"]

/-- Static observation-tag table of `build_local.py` (renamed from the
`core_obsrvation` spelling of `build_index.py`). -/
def core_observation : List String := ["observation"]

/-- Static supplementary-tag table of `build_local.py`. -/
def core_supplementary : List String := ["location"]

/-- The classification of one accumulated entry into the bucket lists
(the body of `for name in ontologies` in `build_local.py`). -/
def classifyOne (ty : String) (d : IndexData) (p : String × List String) : IndexData :=
  let o : Ontology := ⟨p.1, p.2⟩
  if ty = "demo" then { d with demo := d.demo ++ [o] }
  else if p.1 ∈ core then
    let d1 := { d with core := d.core ++ [o] }
    let d2 := if p.1 ∈ core_actor then { d1 with actor := d1.actor ++ [o] } else d1
    let d3 := if p.1 ∈ core_process then { d2 with process := d2.process ++ [o] } else d2
    let d4 := if p.1 ∈ core_resource then { d3 with resource := d3.resource ++ [o] } else d3
    let d5 :=
      if p.1 ∈ core_observation then { d4 with observation := d4.observation ++ [o] } else d4
    if p.1 ∈ core_supplementary then { d5 with supplementary := d5.supplementary ++ [o] } else d5
  else { d with other := d.other ++ [o] }

/-- The data aggregation of `create_index_file` in `build_local.py`, shaped
exactly like its `build_index.py` counterpart. -/
def buildData (paths : String → List String) : Except PyError IndexData := do
  let ontsM ← scanType "modules" (paths "modules") []
  let d1 := ontsM.foldl (classifyOne "modules") emptyIndexData
  let ontsD ← scanType "demo" (paths "demo") []
  let d2 := ontsD.foldl (classifyOne "demo") d1
  pure (sortBuckets d2)

end BuildLocal

/-- The numeric sort key of `create_latest_folders`:
`[int(p) for p in name.split('.')]`, failing with `ValueError` (`none`) as
soon as one dot-separated part is not a valid Python integer string. -/
def versionKey (name : String) : Option (List Int) :=
  (splitOnChar '.' name.data).mapM (fun part => pyInt ⟨part⟩)

/-- Ascending order on `(directory name, key)` pairs by Python comparison of
the integer-list keys, as used by `version_dirs.sort(key=...)`. -/
def keyedLe (a b : String × List Int) : Prop := intListLe a.2 b.2 = true

instance : DecidableRel keyedLe :=
  fun a b => inferInstanceAs (Decidable (intListLe a.2 b.2 = true))

/-- The filter selecting version directories inside one module directory:
`d.name != 'latest' and d.name[0].isdigit()` (the `d.is_dir()` check is
modelled by taking only directory names as input). -/
def isVersionDirName (n : String) : Bool := n ≠ "latest" && headIsDigit n

/-- Computation of every directory's numeric sort key, pairing each
directory name with `[int(p) for p in name.split('.')]` in list order and
failing at the first invalid part, as `list.sort(key=...)` computes all
keys before comparing. -/
def versionKeys : List String → Option (List (String × List Int))
  | [] => some []
  | d :: rest =>
    match versionKey d with
    | none => none
    | some k =>
      match versionKeys rest with
      | none => none
      | some ks => some ((d, k) :: ks)

/-- Selection of the latest version directory in `create_latest_folders`:
filter the subdirectory names to version-like ones, skip the module when
none remain (`if not version_dirs: continue`, modelled as `none`), compute
every numeric sort key (a bad key raises `ValueError`), sort ascending by
key with a stable sort, and take the last element (`version_dirs[-1]`). -/
def latestSelect (names : List String) : Except PyError (Option String) :=
  let vds := names.filter isVersionDirName
  if vds.isEmpty then .ok none
  else
    match versionKeys vds with
    | none => .error .valueError
    | some keyed => .ok ((keyed.insertionSort keyedLe).getLast?.map (fun p => p.1))

/-- The per-module body of `create_latest_folders`, on a module directory
modelled as an association list from subdirectory names to their contents
(`α` stands for a copied directory tree): select the latest version
directory, and if one exists, remove any pre-existing `latest` entry
(`shutil.rmtree`) and copy the selected directory's contents to `latest`
(`shutil.copytree`).  The inner `none` branch of the content lookup is
unreachable because the selected name always comes from `entries`. -/
def latestStep {α : Type} (entries : List (String × α)) :
    Except PyError (List (String × α)) :=
  match latestSelect (entries.map Prod.fst) with
  | .error e => .error e
  | .ok none => .ok entries
  | .ok (some v) =>
    match entries.find? (fun p => p.1 == v) with
    | some pv => .ok (entries.filter (fun p => p.1 != "latest") ++ [("latest", pv.2)])
    | none => .ok entries

/-- Behaviour of one WIDOCO invocation, the external collaborator of
`generate_documentation`: the java process either finishes after some number
of seconds with an exit code, or `subprocess.run` itself raises. -/
inductive ToolBehavior where
  | finishes (seconds : Nat) (code : Int) : ToolBehavior
  | raisesOnInvoke : ToolBehavior
deriving DecidableEq, Repr

/-- The timeout passed to `subprocess.run` (`timeout=300`, five minutes). -/
def widocoTimeoutSeconds : Nat := 300

/-- Observable outcome of `subprocess.run(cmd, ..., timeout=limit)`:
a completed process with its return code, a `TimeoutExpired` exception,
or another invocation exception. -/
inductive RunOutcome where
  | exited (code : Int) : RunOutcome
  | timedOut : RunOutcome
  | raised : RunOutcome
deriving DecidableEq, Repr

/-- `subprocess.run` with a timeout: the process result if it finishes
within the limit, `TimeoutExpired` otherwise. -/
def runWithTimeout (limit : Nat) : ToolBehavior → RunOutcome
  | .finishes seconds code => if seconds ≤ limit then .exited code else .timedOut
  | .raisesOnInvoke => .raised

/-- Return value of `generate_documentation` for one ontology file: `true`
exactly when the WIDOCO run finishes in time with return code 0 (the
success branch then renames `index-en.html`, a filesystem effect outside
this value); a nonzero exit, a timeout, and an invocation exception all
return `false`. -/
def generate_documentation (b : ToolBehavior) : Bool :=
  match runWithTimeout widocoTimeoutSeconds b with
  | .exited 0 => true
  | .exited _ => false
  | .timedOut => false
  | .raised => false

/-- The batch loop of `main` in `build_local.py`: process every discovered
file in order, accumulating `(success_count, fail_count)`. -/
def processBatch (runs : List ToolBehavior) : Nat × Nat :=
  runs.foldl
    (fun counts b =>
      if generate_documentation b then (counts.1 + 1, counts.2) else (counts.1, counts.2 + 1))
    (0, 0)

/-- Prerequisite checks and discovered work of one `build_local.py` run:
whether `check_java` and `check_widoco` succeed, and the WIDOCO behaviour
for each discovered ontology file, in `find_ontology_files` order. -/
structure DriverEnv where
  javaInstalled : Bool
  widocoJarPresent : Bool
  toolRuns : List ToolBehavior

namespace BuildIndex

/-- `create_index_file` of `build_index.py` around an abstract template
renderer: aggregate the data, then compile the template, render it and write
the output file (`render`, which may raise); nothing is caught, so any
exception propagates to the caller. -/
def create_index_file (paths : String → List String)
    (render : IndexData → Except PyError Unit) : Except PyError Unit := do
  let d ← buildData paths
  render d

end BuildIndex

namespace BuildLocal

/-- `create_index_file` of `build_local.py` around an abstract template
renderer: aggregate the data (outside the `try`, so scanner errors still
propagate), then run the template compilation, rendering and file write
inside `try`/`except Exception`, returning `True` on success and `False`
on any caught exception. -/
def create_index_file (paths : String → List String)
    (render : IndexData → Except PyError Unit) : Except PyError Bool := do
  let d ← buildData paths
  match render d with
  | .ok _ => pure true
  | .error _ => pure false

/-- Control flow of `main` in `build_local.py`, returning
`(exit code, number of files processed)` on runs that reach `sys.exit` or
fall off the end, and an error on runs aborted by an unhandled exception:
exit 1 before processing anything when java or the WIDOCO jar is missing or
when no ontology file is found; otherwise process the whole batch, then, if
at least one file succeeded, run `create_latest_folders` (`latest`, which
may raise) and the index step (`indexStep`, whose `False` return only
triggers a warning print), and finally exit 1 exactly when some file failed
documentation generation. -/
def mainRun (e : DriverEnv) (latest : Except PyError Unit)
    (indexStep : Except PyError Bool) : Except PyError (Nat × Nat) :=
  if ¬ e.javaInstalled then .ok (1, 0)
  else if ¬ e.widocoJarPresent then .ok (1, 0)
  else if e.toolRuns.isEmpty then .ok (1, 0)
  else
    let counts := processBatch e.toolRuns
    let afterDocs : Except PyError Unit :=
      if counts.1 > 0 then do
        let _ ← latest
        let _flag ← indexStep
        pure ()
      else pure ()
    match afterDocs with
    | .error err => .error err
    | .ok _ => .ok (if counts.2 > 0 then 1 else 0, e.toolRuns.length)

end BuildLocal

/-- Lookup `ontologies[name]["versions"]` in the accumulation dict, with `[]`
for an absent key (the state `addVersion` starts from). -/
def versionsOf (onts : List (String × List String)) (name : String) : List String :=
  match onts.find? (fun p => p.1 == name) with
  | some p => p.2
  | none => []

/-- `data.values()`: the eight bucket lists of the template context, in
dictionary insertion order. -/
def bucketLists (d : IndexData) : List (List Ontology) :=
  [d.core, d.other, d.demo, d.actor, d.observation, d.process, d.resource, d.supplementary]

/-! Order properties of the comparison relations used by the sorts. -/

theorem charsLe_refl : ∀ cs, charsLe cs cs = true := by
  intro cs
  induction cs with
  | nil => rfl
  | cons a as ih => simp [charsLe, ih]

theorem charsLe_total : ∀ a b, charsLe a b = true ∨ charsLe b a = true := by
  intro a
  induction a with
  | nil => intro b; left; rfl
  | cons x xs ih =>
    intro b
    cases b with
    | nil => right; rfl
    | cons y ys =>
      simp only [charsLe]
      rcases Nat.lt_trichotomy x.toNat y.toNat with h | h | h
      · left; simp [h]
      · have hxy : ¬ x.toNat < y.toNat := by omega
        have hyx : ¬ y.toNat < x.toNat := by omega
        rcases ih ys with h' | h'
        · left; simp [hxy, hyx, h']
        · right; simp [hxy, hyx, h']
      · right; simp [h]

theorem charsLe_trans :
    ∀ a b c, charsLe a b = true → charsLe b c = true → charsLe a c = true := by
  intro a
  induction a with
  | nil => intro b c _ _; rfl
  | cons x xs ih =>
    intro b c hab hbc
    cases b with
    | nil => simp [charsLe] at hab
    | cons y ys =>
      cases c with
      | nil => simp [charsLe] at hbc
      | cons z zs =>
        simp only [charsLe] at hab hbc ⊢
        by_cases hxy : x.toNat < y.toNat
        · by_cases hyz : y.toNat < z.toNat
          · have : x.toNat < z.toNat := by omega
            simp [this]
          · by_cases hzy : z.toNat < y.toNat
            · simp [hyz, hzy] at hbc
            · have : x.toNat < z.toNat := by omega
              simp [this]
        · by_cases hyx : y.toNat < x.toNat
          · simp [hxy, hyx] at hab
          · by_cases hyz : y.toNat < z.toNat
            · have : x.toNat < z.toNat := by omega
              simp [this]
            · by_cases hzy : z.toNat < y.toNat
              · simp [hyz, hzy] at hbc
              · have h1 : ¬ x.toNat < z.toNat := by omega
                have h2 : ¬ z.toNat < x.toNat := by omega
                simp only [hxy, hyx, if_neg, ite_false] at hab
                simp only [hyz, hzy, if_neg, ite_false] at hbc
                simp [h1, h2, ih ys zs hab hbc]

theorem intListLe_refl : ∀ l, intListLe l l = true := by
  intro l
  induction l with
  | nil => rfl
  | cons a as ih => simp [intListLe, ih]

theorem intListLe_total : ∀ a b, intListLe a b = true ∨ intListLe b a = true := by
  intro a
  induction a with
  | nil => intro b; left; rfl
  | cons x xs ih =>
    intro b
    cases b with
    | nil => right; rfl
    | cons y ys =>
      simp only [intListLe]
      rcases lt_trichotomy x y with h | h | h
      · left; simp [h]
      · have hxy : ¬ x < y := by omega
        have hyx : ¬ y < x := by omega
        rcases ih ys with h' | h'
        · left; simp [hxy, hyx, h']
        · right; simp [hxy, hyx, h']
      · right; simp [h]

theorem intListLe_trans :
    ∀ a b c, intListLe a b = true → intListLe b c = true → intListLe a c = true := by
  intro a
  induction a with
  | nil => intro b c _ _; rfl
  | cons x xs ih =>
    intro b c hab hbc
    cases b with
    | nil => simp [intListLe] at hab
    | cons y ys =>
      cases c with
      | nil => simp [intListLe] at hbc
      | cons z zs =>
        simp only [intListLe] at hab hbc ⊢
        by_cases hxy : x < y
        · by_cases hyz : y < z
          · have : x < z := by omega
            simp [this]
          · by_cases hzy : z < y
            · simp [hyz, hzy] at hbc
            · have : x < z := by omega
              simp [this]
        · by_cases hyx : y < x
          · simp [hxy, hyx] at hab
          · by_cases hyz : y < z
            · have : x < z := by omega
              simp [this]
            · by_cases hzy : z < y
              · simp [hyz, hzy] at hbc
              · have h1 : ¬ x < z := by omega
                have h2 : ¬ z < x := by omega
                simp only [hxy, hyx, if_neg, ite_false] at hab
                simp only [hyz, hzy, if_neg, ite_false] at hbc
                simp [h1, h2, ih ys zs hab hbc]

instance : IsTotal String verGe :=
  ⟨fun a b => (charsLe_total b.data a.data).elim Or.inl Or.inr⟩

instance : IsTrans String verGe :=
  ⟨fun _ _ _ hab hbc => charsLe_trans _ _ _ hbc hab⟩

instance : IsRefl String verGe := ⟨fun a => charsLe_refl a.data⟩

instance : IsTotal Ontology ontNameLe :=
  ⟨fun a b => (charsLe_total a.name.data b.name.data).elim Or.inl Or.inr⟩

instance : IsTrans Ontology ontNameLe :=
  ⟨fun _ _ _ hab hbc => charsLe_trans _ _ _ hab hbc⟩

instance : IsTotal (String × List Int) keyedLe :=
  ⟨fun a b => (intListLe_total a.2 b.2).elim Or.inl Or.inr⟩

instance : IsTrans (String × List Int) keyedLe :=
  ⟨fun _ _ _ hab hbc => intListLe_trans _ _ _ hab hbc⟩

/-! Counting behaviour of the documentation batch loop. -/

theorem processBatch_counts (runs : List ToolBehavior) :
    processBatch runs =
      (runs.countP generate_documentation,
       runs.countP (fun b => ! generate_documentation b)) := by
  have go : ∀ (rs : List ToolBehavior) (s f : Nat),
      rs.foldl
        (fun counts b =>
          if generate_documentation b then (counts.1 + 1, counts.2) else (counts.1, counts.2 + 1))
        (s, f) =
      (s + rs.countP generate_documentation,
       f + rs.countP (fun b => ! generate_documentation b)) := by
    intro rs
    induction rs with
    | nil => intro s f; simp
    | cons b bs ih =>
      intro s f
      by_cases h : generate_documentation b = true
      · simp [h, ih, List.countP_cons]
        omega
      · simp only [Bool.not_eq_true] at h
        simp [h, ih, List.countP_cons]
        omega
  simpa using go runs 0 0

/-- C9: for every filesystem state, the index-data aggregation of the
standalone index builder (`build_index.py`) and the aggregation embedded in
the local-build driver (`build_local.py`) produce exactly the same data
mapping — same buckets, same entries, same name and version orderings —
despite the renamed observation-table variable. -/
theorem claim_C9_aggregator_equivalence :
    ∀ paths : String → List String,
      BuildIndex.buildData paths = BuildLocal.buildData paths :=
  fun _ => rfl

/-- C5: documentation generation that fails — nonzero exit code within the
300-second bound, a run exceeding the fixed 300-second timeout, or an
invocation exception — returns failure, and the batch loop counts that
failure once while processing every other file exactly as it would have:
the counts over `pre ++ failing :: post` are the counts of `pre` plus the
counts of `post` plus one failure. -/
theorem claim_C5_docgen_failure_isolation :
    (∀ (s : Nat) (c : Int), s ≤ widocoTimeoutSeconds → c ≠ 0 →
      generate_documentation (.finishes s c) = false) ∧
    (∀ (s : Nat) (c : Int), widocoTimeoutSeconds < s →
      generate_documentation (.finishes s c) = false) ∧
    generate_documentation .raisesOnInvoke = false ∧
    (∀ (pre : List ToolBehavior) (b : ToolBehavior) (post : List ToolBehavior),
      generate_documentation b = false →
      processBatch (pre ++ b :: post) =
        ((processBatch pre).1 + (processBatch post).1,
         (processBatch pre).2 + 1 + (processBatch post).2)) := by
  refine ⟨?_, ?_, rfl, ?_⟩
  · intro s c hs hc
    simp only [generate_documentation, runWithTimeout, if_pos hs]
  · intro s c hs
    have : ¬ s ≤ widocoTimeoutSeconds := by omega
    simp [generate_documentation, runWithTimeout, this]
  · intro pre b post hb
    simp [processBatch_counts, List.countP_append, List.countP_cons, hb]
    omega

/-- Witness for C5 at concrete inputs: a nonzero exit code, an overlong run
and an invocation exception each count as one failure, and a failing middle
file leaves the outer files' counts unchanged. -/
theorem claim_C5_docgen_failure_isolation_witness :
    generate_documentation (.finishes 10 2) = false ∧
    generate_documentation (.finishes 301 0) = false ∧
    processBatch
        [ToolBehavior.finishes 10 0, ToolBehavior.finishes 10 2, ToolBehavior.finishes 10 0] =
      ((processBatch [ToolBehavior.finishes 10 0]).1 +
         (processBatch [ToolBehavior.finishes 10 0]).1,
       (processBatch [ToolBehavior.finishes 10 0]).2 + 1 +
         (processBatch [ToolBehavior.finishes 10 0]).2) :=
  ⟨claim_C5_docgen_failure_isolation.1 10 2 (by decide) (by decide),
   claim_C5_docgen_failure_isolation.2.1 301 0 (by decide),
   claim_C5_docgen_failure_isolation.2.2.2
     [ToolBehavior.finishes 10 0] (ToolBehavior.finishes 10 2) [ToolBehavior.finishes 10 0] rfl⟩

/-- Completed runs of the driver: with both prerequisites present, a
nonempty batch, a successful `create_latest_folders` and an index step that
returns a flag, `main` always reaches the summary and exits 1 exactly when
some file failed documentation generation. -/
theorem mainRun_completed (e : DriverEnv) (flag : Bool)
    (hj : e.javaInstalled = true) (hw : e.widocoJarPresent = true) (hne : e.toolRuns ≠ []) :
    BuildLocal.mainRun e (.ok ()) (.ok flag) =
      .ok (if (processBatch e.toolRuns).2 > 0 then 1 else 0, e.toolRuns.length) := by
  have hempty : e.toolRuns.isEmpty = false := by
    simp [List.isEmpty_iff, hne]
  simp only [BuildLocal.mainRun, hj, hw, hempty, Bool.not_eq_true, not_false_eq_true,
    not_true_eq_false, if_false, ite_false, Bool.false_eq_true]
  have hbind : (do
      let _ ← (Except.ok () : Except PyError Unit)
      let _flag ← (Except.ok flag : Except PyError Bool)
      pure () : Except PyError Unit) = Except.ok () := rfl
  rw [hbind]
  by_cases hpos : (processBatch e.toolRuns).1 > 0
  · rw [if_pos hpos]
  · rw [if_neg hpos]
    exact rfl

/-- Counterexample to C6 as stated: with java installed and the WIDOCO jar
present, and with every discovered file succeeding (vacuously, since no
ontology file is discovered), the driver still exits with code 1 — the
`sys.exit(1)` taken when `find_ontology_files` returns an empty list —
contradicting the claim that the run does not exit nonzero when all
prerequisites are present and every file succeeds. -/
theorem claim_C6_counterexample :
    (∀ b ∈ ([] : List ToolBehavior), generate_documentation b = true) ∧
    BuildLocal.mainRun ⟨true, true, []⟩ (.ok ()) (.ok true) = .ok (1, 0) ∧
    ¬ ∃ n, BuildLocal.mainRun ⟨true, true, []⟩ (.ok ()) (.ok true) = .ok (0, n) := by
  refine ⟨by simp, rfl, ?_⟩
  simp [BuildLocal.mainRun]

/-- C6 (amended): the local-build driver exits with code 1 when java or the
WIDOCO jar is missing, processing no file, and also exits with code 1 at the
end of a completed run when some file failed documentation generation; when
all prerequisites are present, at least one ontology file is discovered,
the latest-folder and index steps complete, and every file succeeds, it
exits with code 0.  (The amendment adds the discovered-file requirement:
an empty batch also exits with code 1.) -/
theorem claim_C6_exit_codes :
    ∀ (e : DriverEnv) (latest : Except PyError Unit) (flag : Bool),
      (e.javaInstalled = false →
        BuildLocal.mainRun e latest (.ok flag) = .ok (1, 0)) ∧
      (e.javaInstalled = true → e.widocoJarPresent = false →
        BuildLocal.mainRun e latest (.ok flag) = .ok (1, 0)) ∧
      (e.javaInstalled = true → e.widocoJarPresent = true → e.toolRuns ≠ [] →
        (∃ b ∈ e.toolRuns, generate_documentation b = false) →
        BuildLocal.mainRun e (.ok ()) (.ok flag) = .ok (1, e.toolRuns.length)) ∧
      (e.javaInstalled = true → e.widocoJarPresent = true → e.toolRuns ≠ [] →
        (∀ b ∈ e.toolRuns, generate_documentation b = true) →
        BuildLocal.mainRun e (.ok ()) (.ok flag) = .ok (0, e.toolRuns.length)) := by
  intro e latest flag
  refine ⟨?_, ?_, ?_, ?_⟩
  · intro hj
    simp [BuildLocal.mainRun, hj]
  · intro hj hw
    simp [BuildLocal.mainRun, hj, hw]
  · intro hj hw hne hfail
    rw [mainRun_completed e flag hj hw hne]
    have hf : 0 < (processBatch e.toolRuns).2 := by
      rw [processBatch_counts]
      rw [List.countP_pos_iff]
      obtain ⟨b, hb, hbf⟩ := hfail
      exact ⟨b, hb, by simp [hbf]⟩
    rw [if_pos hf]
  · intro hj hw hne hall
    rw [mainRun_completed e flag hj hw hne]
    have hf : (processBatch e.toolRuns).2 = 0 := by
      rw [processBatch_counts]
      rw [List.countP_eq_zero]
      intro b hb
      simp [hall b hb]
    simp [hf]

/-- Witness for C6 (amended) at concrete inputs: missing java exits 1 with
no file processed, missing jar likewise, a one-file batch whose file fails
exits 1, and a one-file batch whose file succeeds exits 0. -/
theorem claim_C6_exit_codes_witness :
    BuildLocal.mainRun ⟨false, true, []⟩ (.ok ()) (.ok true) = .ok (1, 0) ∧
    BuildLocal.mainRun ⟨true, false, []⟩ (.ok ()) (.ok true) = .ok (1, 0) ∧
    BuildLocal.mainRun ⟨true, true, [ToolBehavior.finishes 10 1]⟩ (.ok ()) (.ok true) =
      .ok (1, 1) ∧
    BuildLocal.mainRun ⟨true, true, [ToolBehavior.finishes 10 0]⟩ (.ok ()) (.ok true) =
      .ok (0, 1) :=
  ⟨(claim_C6_exit_codes ⟨false, true, []⟩ (.ok ()) true).1 rfl,
   (claim_C6_exit_codes ⟨true, false, []⟩ (.ok ()) true).2.1 rfl rfl,
   (claim_C6_exit_codes ⟨true, true, [ToolBehavior.finishes 10 1]⟩ (.ok ()) true).2.2.1
     rfl rfl (by simp) ⟨ToolBehavior.finishes 10 1, by simp, rfl⟩,
   (claim_C6_exit_codes ⟨true, true, [ToolBehavior.finishes 10 0]⟩ (.ok ()) true).2.2.2
     rfl rfl (by simp) (by intro b hb; simp at hb; subst hb; rfl)⟩

/-- C4: when the template pipeline (compilation, rendering or writing,
abstracted by `render`) raises, the local-build driver's index step catches
the exception and returns the failure flag `False`, and the driver still
completes the run to the summary with its exit code decided only by the
documentation failure count; the standalone index builder does not catch
the same exception, which propagates out of its `create_index_file` and
aborts the process. -/
theorem claim_C4_index_failure_handling :
    ∀ (paths : String → List String) (render : IndexData → Except PyError Unit)
      (d : IndexData) (err : PyError),
      BuildLocal.buildData paths = .ok d →
      render d = .error err →
      BuildLocal.create_index_file paths render = .ok false ∧
      (∀ (e : DriverEnv), e.javaInstalled = true → e.widocoJarPresent = true →
        e.toolRuns ≠ [] →
        BuildLocal.mainRun e (.ok ()) (BuildLocal.create_index_file paths render) =
          .ok (if (processBatch e.toolRuns).2 > 0 then 1 else 0, e.toolRuns.length)) ∧
      BuildIndex.create_index_file paths render = .error err := by
  intro paths render d err hagg hrend
  have hlocal : BuildLocal.create_index_file paths render = .ok false := by
    unfold BuildLocal.create_index_file
    rw [hagg]
    show (match render d with
      | .ok _ => pure true
      | .error _ => pure false : Except PyError Bool) = .ok false
    rw [hrend]
    exact rfl
  refine ⟨hlocal, ?_, ?_⟩
  · intro e hj hw hne
    rw [hlocal]
    exact mainRun_completed e false hj hw hne
  · unfold BuildIndex.create_index_file
    have hagg' : BuildIndex.buildData paths = .ok d := hagg
    rw [hagg']
    show render d = .error err
    exact hrend

/-- Witness for C4 at concrete inputs: an always-raising renderer on the
empty filesystem gives the local index step the failure flag, leaves a
completed one-file run with exit code 0, and aborts the standalone index
builder with the exception. -/
theorem claim_C4_index_failure_handling_witness :
    BuildLocal.create_index_file (fun _ => []) (fun _ => .error .exception) = .ok false ∧
    BuildLocal.mainRun ⟨true, true, [ToolBehavior.finishes 10 0]⟩ (.ok ())
        (BuildLocal.create_index_file (fun _ => []) (fun _ => .error .exception)) =
      .ok (if (processBatch [ToolBehavior.finishes 10 0]).2 > 0 then 1 else 0,
           [ToolBehavior.finishes 10 0].length) ∧
    BuildIndex.create_index_file (fun _ => []) (fun _ => .error .exception) =
      .error .exception := by
  have h := claim_C4_index_failure_handling (fun _ => []) (fun _ => .error .exception)
    ⟨[], [], [], [], [], [], [], []⟩ .exception rfl rfl
  exact ⟨h.1, h.2.1 ⟨true, true, [ToolBehavior.finishes 10 0]⟩ rfl rfl (by simp), h.2.2⟩

/-- C8: in the path scanner, a path not ending in the indexable `.ttl`
extension is skipped silently, leaving the aggregation exactly as if the
path had not been enumerated, while a `.ttl` path that the positional
pattern `ontology/<type>/<name>/<version>` does not match raises an
unhandled `AttributeError`, which propagates out of `create_index_file`
in both scripts and aborts the whole run. -/
theorem claim_C8_scanner_skip_or_fatal :
    ∀ (ty : String) (onts : List (String × List String)) (source : String)
      (rest : List String),
      (pyEndsWith source ".ttl" = false →
        scanType ty (source :: rest) onts = scanType ty rest onts) ∧
      (pyEndsWith source ".ttl" = true → matchParts ty source = none →
        scanType ty (source :: rest) onts = .error .attributeError) ∧
      (∀ (paths : String → List String) (render : IndexData → Except PyError Unit)
         (err : PyError),
        scanType "modules" (paths "modules") [] = .error err →
        BuildIndex.create_index_file paths render = .error err ∧
        BuildLocal.create_index_file paths render = .error err) := by
  intro ty onts source rest
  refine ⟨?_, ?_, ?_⟩
  · intro h
    simp [scanType, h]
  · intro h1 h2
    simp [scanType, h1, h2]
  · intro paths render err hscan
    constructor
    · unfold BuildIndex.create_index_file BuildIndex.buildData
      rw [hscan]
      exact rfl
    · unfold BuildLocal.create_index_file BuildLocal.buildData
      rw [hscan]
      exact rfl

/-- Witness for C8 at concrete inputs: a non-`.ttl` path is skipped with no
effect, a malformed `.ttl` path raises `AttributeError`, and the error
aborts both scripts' index generation. -/
theorem claim_C8_scanner_skip_or_fatal_witness :
    scanType "modules" ["ontology/modules/a/0.1/f.txt"] [] = scanType "modules" [] [] ∧
    scanType "modules" ["weird.ttl"] [] = .error .attributeError ∧
    BuildIndex.create_index_file (fun _ => ["weird.ttl"]) (fun _ => .ok ()) =
      .error .attributeError ∧
    BuildLocal.create_index_file (fun _ => ["weird.ttl"]) (fun _ => .ok ()) =
      .error .attributeError :=
  ⟨(claim_C8_scanner_skip_or_fatal "modules" [] "ontology/modules/a/0.1/f.txt" []).1 rfl,
   (claim_C8_scanner_skip_or_fatal "modules" [] "weird.ttl" []).2.1 rfl rfl,
   ((claim_C8_scanner_skip_or_fatal "modules" [] "weird.ttl" []).2.2
     (fun _ => ["weird.ttl"]) (fun _ => .ok ()) .attributeError rfl).1,
   ((claim_C8_scanner_skip_or_fatal "modules" [] "weird.ttl" []).2.2
     (fun _ => ["weird.ttl"]) (fun _ => .ok ()) .attributeError rfl).2⟩

/-- Finding a key after the accumulation dict's update map: the first entry
whose key matches is updated, all other entries are untouched. -/
theorem find?_map_update (l : List (String × List String)) (name version : String) :
    (l.map (fun p =>
        if p.1 == name then (p.1, sortVersionsDesc (p.2 ++ [version])) else p)).find?
        (fun p => p.1 == name) =
      (l.find? (fun p => p.1 == name)).map
        (fun p => (p.1, sortVersionsDesc (p.2 ++ [version]))) := by
  induction l with
  | nil => rfl
  | cons a l ih =>
    by_cases h : a.1 == name
    · simp only [List.map_cons, if_pos h]
      rw [List.find?_cons_of_pos _ (by simpa using h),
          List.find?_cons_of_pos _ (by simpa using h)]
      rfl
    · simp only [List.map_cons, if_neg h]
      rw [List.find?_cons_of_neg _ (by simpa using h),
          List.find?_cons_of_neg _ (by simpa using h)]
      exact ih

/-- Effect of one accumulator insertion on the stored version list: the new
list is the old one with the version appended, re-sorted descending. -/
theorem versionsOf_addVersion (onts : List (String × List String)) (name version : String) :
    versionsOf (addVersion onts name version) name =
      sortVersionsDesc (versionsOf onts name ++ [version]) := by
  unfold addVersion versionsOf
  by_cases h : onts.any (fun p => p.1 == name)
  · simp only [h, if_pos]
    rw [find?_map_update]
    obtain ⟨p, hp, hpn⟩ : ∃ x, x ∈ onts ∧ (x.1 == name) = true := by
      simpa using h
    obtain ⟨q, hq⟩ : ∃ q, onts.find? (fun p => p.1 == name) = some q := by
      cases hfq : onts.find? (fun p => p.1 == name) with
      | some q => exact ⟨q, rfl⟩
      | none =>
        rw [List.find?_eq_none] at hfq
        exact absurd hpn (by simpa using hfq p hp)
    rw [hq]
    rfl
  · simp only [h, if_neg, ite_false, Bool.false_eq_true, not_false_eq_true]
    rw [List.map_append, List.find?_append, find?_map_update]
    have hnone : onts.find? (fun p => p.1 == name) = none := by
      rw [List.find?_eq_none]
      intro x hx
      simp only [Bool.not_eq_true]
      by_contra hc
      exact h (by simp only [List.any_eq_true]; exact ⟨x, hx, by simpa using hc⟩)
    rw [hnone]
    rw [List.map_cons, List.map_nil]
    rw [if_pos (show ((name, ([] : List String)).1 == name) = true by simp)]
    rw [List.find?_cons_of_pos _ (by simp)]
    rfl

/-- C7: the aggregator accumulates `(name, version)` pairs keyed by name,
appending every occurrence — a duplicate version adds another copy, its
count always increasing by exactly one — and re-sorting the version list
descending by string order after each insertion, so the stored list is
always sorted descending and re-sorting it again leaves it unchanged. -/
theorem claim_C7_accumulator_append_resort :
    ∀ (onts : List (String × List String)) (name version : String),
      versionsOf (addVersion onts name version) name =
        sortVersionsDesc (versionsOf onts name ++ [version]) ∧
      (∀ v, (versionsOf (addVersion onts name version) name).count v =
        (versionsOf onts name).count v + if v = version then 1 else 0) ∧
      List.Sorted verGe (versionsOf (addVersion onts name version) name) ∧
      sortVersionsDesc (versionsOf (addVersion onts name version) name) =
        versionsOf (addVersion onts name version) name := by
  intro onts name version
  have h1 := versionsOf_addVersion onts name version
  refine ⟨h1, ?_, ?_, ?_⟩
  · intro v
    rw [h1]
    have hperm := List.perm_insertionSort verGe (versionsOf onts name ++ [version])
    simp only [sortVersionsDesc]
    rw [hperm.count_eq]
    rw [List.count_append, List.count_singleton]
    by_cases hv : v = version
    · subst hv; simp
    · simp [hv, Ne.symm hv]
  · rw [h1]
    exact List.sorted_insertionSort verGe _
  · rw [h1]
    exact (List.sorted_insertionSort verGe _).insertionSort_eq

/-- Characterization of one classification step of `build_index.py`: each
bucket receives the entry exactly when its static-table condition holds. -/
theorem classifyOne_characterization :
    ∀ (ty : String) (d : IndexData) (p : String × List String),
      BuildIndex.classifyOne ty d p =
        { core := d.core ++
            (if ty ≠ "demo" ∧ p.1 ∈ BuildIndex.core then [⟨p.1, p.2⟩] else []),
          other := d.other ++
            (if ty ≠ "demo" ∧ p.1 ∉ BuildIndex.core then [⟨p.1, p.2⟩] else []),
          demo := d.demo ++ (if ty = "demo" then [⟨p.1, p.2⟩] else []),
          actor := d.actor ++
            (if ty ≠ "demo" ∧ p.1 ∈ BuildIndex.core ∧ p.1 ∈ BuildIndex.core_actor then
              [⟨p.1, p.2⟩] else []),
          observation := d.observation ++
            (if ty ≠ "demo" ∧ p.1 ∈ BuildIndex.core ∧ p.1 ∈ BuildIndex.core_obsrvation then
              [⟨p.1, p.2⟩] else []),
          process := d.process ++
            (if ty ≠ "demo" ∧ p.1 ∈ BuildIndex.core ∧ p.1 ∈ BuildIndex.core_process then
              [⟨p.1, p.2⟩] else []),
          resource := d.resource ++
            (if ty ≠ "demo" ∧ p.1 ∈ BuildIndex.core ∧ p.1 ∈ BuildIndex.core_resource then
              [⟨p.1, p.2⟩] else []),
          supplementary := d.supplementary ++
            (if ty ≠ "demo" ∧ p.1 ∈ BuildIndex.core ∧ p.1 ∈ BuildIndex.core_supplementary then
              [⟨p.1, p.2⟩] else []) } := by
  intro ty d p
  by_cases hd : ty = "demo"
  · simp [BuildIndex.classifyOne, hd]
  · by_cases hc : p.1 ∈ BuildIndex.core
    · by_cases ha : p.1 ∈ BuildIndex.core_actor <;>
      by_cases hp : p.1 ∈ BuildIndex.core_process <;>
      by_cases hr : p.1 ∈ BuildIndex.core_resource <;>
      by_cases ho : p.1 ∈ BuildIndex.core_obsrvation <;>
      by_cases hs : p.1 ∈ BuildIndex.core_supplementary <;>
      simp [BuildIndex.classifyOne, hd, hc, ha, hp, hr, ho, hs]
    · simp [BuildIndex.classifyOne, hd, hc]

/-- C1: each accumulated `(type, name)` entry is appended to a top-level
bucket exactly when the static-table condition for that bucket holds —
`demo` entries go to the demo bucket, module names in the core table go to
core and module names outside it to other, with core names additionally
fanned out to exactly the secondary tag buckets whose membership lists
contain the name — so every entry lands in exactly one top-level bucket
(their combined length grows by exactly one); concretely, modules
`actorODP` (versions 0.1, 0.2) and `widgetX` (version 0.1) yield `actorODP`
in both the core and actor buckets and `widgetX` only in the other
bucket. -/
theorem claim_C1_bucket_placement :
    (∀ (ty : String) (d : IndexData) (p : String × List String),
      BuildIndex.classifyOne ty d p =
        { core := d.core ++
            (if ty ≠ "demo" ∧ p.1 ∈ BuildIndex.core then [⟨p.1, p.2⟩] else []),
          other := d.other ++
            (if ty ≠ "demo" ∧ p.1 ∉ BuildIndex.core then [⟨p.1, p.2⟩] else []),
          demo := d.demo ++ (if ty = "demo" then [⟨p.1, p.2⟩] else []),
          actor := d.actor ++
            (if ty ≠ "demo" ∧ p.1 ∈ BuildIndex.core ∧ p.1 ∈ BuildIndex.core_actor then
              [⟨p.1, p.2⟩] else []),
          observation := d.observation ++
            (if ty ≠ "demo" ∧ p.1 ∈ BuildIndex.core ∧ p.1 ∈ BuildIndex.core_obsrvation then
              [⟨p.1, p.2⟩] else []),
          process := d.process ++
            (if ty ≠ "demo" ∧ p.1 ∈ BuildIndex.core ∧ p.1 ∈ BuildIndex.core_process then
              [⟨p.1, p.2⟩] else []),
          resource := d.resource ++
            (if ty ≠ "demo" ∧ p.1 ∈ BuildIndex.core ∧ p.1 ∈ BuildIndex.core_resource then
              [⟨p.1, p.2⟩] else []),
          supplementary := d.supplementary ++
            (if ty ≠ "demo" ∧ p.1 ∈ BuildIndex.core ∧ p.1 ∈ BuildIndex.core_supplementary then
              [⟨p.1, p.2⟩] else []) }) ∧
    (∀ (ty : String) (d : IndexData) (p : String × List String),
      (BuildIndex.classifyOne ty d p).core.length +
        (BuildIndex.classifyOne ty d p).other.length +
        (BuildIndex.classifyOne ty d p).demo.length =
      d.core.length + d.other.length + d.demo.length + 1) ∧
    BuildIndex.buildData (fun t =>
      if t = "modules" then
        ["ontology/modules/actorODP/0.1/actorODP.ttl",
         "ontology/modules/actorODP/0.2/actorODP.ttl",
         "ontology/modules/widgetX/0.1/widgetX.ttl"]
      else []) =
    .ok { core := [⟨"actorODP", ["0.2", "0.1"]⟩],
          other := [⟨"widgetX", ["0.1"]⟩],
          demo := [],
          actor := [⟨"actorODP", ["0.2", "0.1"]⟩],
          observation := [],
          process := [],
          resource := [],
          supplementary := [] } := by
  refine ⟨classifyOne_characterization, ?_, rfl⟩
  intro ty d p
  rw [classifyOne_characterization ty d p]
  by_cases hd : ty = "demo"
  · simp [hd]
    omega
  · by_cases hc : p.1 ∈ BuildIndex.core
    · simp [hd, hc]
      omega
    · simp [hd, hc]
      omega

/-- Reduction of the `Except` monad's bind on a success value. -/
theorem except_bind_ok {α β : Type} (a : α) (f : α → Except PyError β) :
    (Except.ok a : Except PyError α) >>= f = f a := rfl

/-- Reduction of the `Except` monad's bind on an error value. -/
theorem except_bind_error {α β : Type} (e : PyError) (f : α → Except PyError β) :
    (Except.error e : Except PyError α) >>= f = .error e := rfl

/-- Reduction of `pure` in the `Except` monad. -/
theorem except_pure {α : Type} (a : α) : (pure a : Except PyError α) = .ok a := rfl

/-- One accumulator insertion keeps every stored version list sorted
descending. -/
theorem addVersion_sorted (onts : List (String × List String)) (name version : String)
    (h : ∀ p ∈ onts, List.Sorted verGe p.2) :
    ∀ p ∈ addVersion onts name version, List.Sorted verGe p.2 := by
  intro p hp
  unfold addVersion at hp
  simp only [List.mem_map] at hp
  obtain ⟨q, hq, rfl⟩ := hp
  by_cases hqn : q.1 == name
  · simp only [hqn, if_pos]
    exact List.sorted_insertionSort verGe _
  · simp only [hqn, Bool.false_eq_true, if_neg, ite_false, not_false_eq_true]
    by_cases hany : onts.any (fun p => p.1 == name)
    · rw [if_pos hany] at hq
      exact h q hq
    · rw [if_neg hany] at hq
      rcases List.mem_append.1 hq with hq | hq
      · exact h q hq
      · simp only [List.mem_singleton] at hq
        subst hq
        exact List.sorted_nil

/-- The scanner keeps every accumulated version list sorted descending. -/
theorem scanType_versions_sorted (ty : String) :
    ∀ (srcs : List String) (onts res : List (String × List String)),
      (∀ p ∈ onts, List.Sorted verGe p.2) →
      scanType ty srcs onts = .ok res →
      ∀ p ∈ res, List.Sorted verGe p.2 := by
  intro srcs
  induction srcs with
  | nil =>
    intro onts res h hscan
    cases hscan
    exact h
  | cons source rest ih =>
    intro onts res h hscan
    rw [scanType] at hscan
    by_cases hext : pyEndsWith source ".ttl"
    · rw [if_neg (by simp [hext])] at hscan
      cases hmp : matchParts ty source with
      | some nv =>
        rw [hmp] at hscan
        exact ih (addVersion onts nv.1 nv.2)
          res (addVersion_sorted onts nv.1 nv.2 h) hscan
      | none =>
        rw [hmp] at hscan
        cases hscan
    · rw [if_pos (by simp [hext])] at hscan
      exact ih onts res h hscan

/-- Every entry of a bucket after one classification step was either already
in a bucket or is the entry just classified. -/
theorem mem_classifyOne (ty : String) (d : IndexData) (p : String × List String) :
    ∀ l ∈ bucketLists (BuildIndex.classifyOne ty d p), ∀ o ∈ l,
      (∃ l' ∈ bucketLists d, o ∈ l') ∨ o = ⟨p.1, p.2⟩ := by
  intro l hl o ho
  rw [classifyOne_characterization ty d p] at hl
  have hsplit : ∀ (x : List Ontology) (c : Prop) [Decidable c],
      x ∈ bucketLists d → o ∈ x ++ (if c then [(⟨p.1, p.2⟩ : Ontology)] else []) →
      (∃ l' ∈ bucketLists d, o ∈ l') ∨ o = ⟨p.1, p.2⟩ := by
    intro x c hc hx hox
    rcases List.mem_append.1 hox with hox | hox
    · exact Or.inl ⟨x, hx, hox⟩
    · right
      by_cases h : c
      · rw [if_pos h] at hox
        simpa using hox
      · rw [if_neg h] at hox
        simp at hox
  simp only [bucketLists, List.mem_cons, List.not_mem_nil, or_false] at hl
  rcases hl with rfl | rfl | rfl | rfl | rfl | rfl | rfl | rfl
  · exact hsplit d.core _ (by simp [bucketLists]) ho
  · exact hsplit d.other _ (by simp [bucketLists]) ho
  · exact hsplit d.demo _ (by simp [bucketLists]) ho
  · exact hsplit d.actor _ (by simp [bucketLists]) ho
  · exact hsplit d.observation _ (by simp [bucketLists]) ho
  · exact hsplit d.process _ (by simp [bucketLists]) ho
  · exact hsplit d.resource _ (by simp [bucketLists]) ho
  · exact hsplit d.supplementary _ (by simp [bucketLists]) ho

/-- The classification fold keeps every bucket entry's version list sorted
descending, provided the accumulated entries' lists are. -/
theorem classify_versions_sorted (ty : String) :
    ∀ (onts : List (String × List String)) (d : IndexData),
      (∀ l ∈ bucketLists d, ∀ o ∈ l, List.Sorted verGe o.versions) →
      (∀ p ∈ onts, List.Sorted verGe p.2) →
      ∀ l ∈ bucketLists (onts.foldl (BuildIndex.classifyOne ty) d),
        ∀ o ∈ l, List.Sorted verGe o.versions := by
  intro onts
  induction onts with
  | nil =>
    intro d hd _ l hl o ho
    exact hd l hl o ho
  | cons p onts ih =>
    intro d hd hsorted l hl o ho
    rw [List.foldl_cons] at hl
    refine ih (BuildIndex.classifyOne ty d p) ?_
      (fun q hq => hsorted q (List.mem_cons_of_mem p hq)) l hl o ho
    intro l' hl' o' ho'
    rcases mem_classifyOne ty d p l' hl' o' ho' with ⟨l'', hl'', ho''⟩ | rfl
    · exact hd l'' hl'' o' ho''
    · exact hsorted p (List.mem_cons_self p onts)

/-- C2: whenever the aggregation completes, every bucket list of the
rendered context is sorted ascending by name and every entry's version list
is sorted descending by plain string comparison; in particular the versions
`0.2`, `0.10`, `1.0` come out in the string-descending order
`["1.0", "0.2", "0.10"]`, not in numeric order. -/
theorem claim_C2_sorted_buckets_and_versions :
    (∀ (paths : String → List String) (d : IndexData),
      BuildIndex.buildData paths = .ok d →
      ∀ l ∈ bucketLists d,
        List.Sorted ontNameLe l ∧ ∀ o ∈ l, List.Sorted verGe o.versions) ∧
    sortVersionsDesc ["0.2", "0.10", "1.0"] = ["1.0", "0.2", "0.10"] ∧
    BuildIndex.buildData (fun t =>
      if t = "modules" then
        ["ontology/modules/widgetX/0.2/widgetX.ttl",
         "ontology/modules/widgetX/0.10/widgetX.ttl",
         "ontology/modules/widgetX/1.0/widgetX.ttl"]
      else []) =
    .ok { core := [],
          other := [⟨"widgetX", ["1.0", "0.2", "0.10"]⟩],
          demo := [],
          actor := [],
          observation := [],
          process := [],
          resource := [],
          supplementary := [] } := by
  refine ⟨?_, rfl, rfl⟩
  intro paths d h
  unfold BuildIndex.buildData at h
  cases hm : scanType "modules" (paths "modules") [] with
  | error e =>
    rw [hm] at h
    rw [except_bind_error] at h
    cases h
  | ok ontsM =>
    rw [hm] at h
    rw [except_bind_ok] at h
    cases hd : scanType "demo" (paths "demo") [] with
    | error e =>
      rw [hd] at h
      rw [except_bind_error] at h
      cases h
    | ok ontsD =>
      rw [hd] at h
      rw [except_bind_ok, except_pure] at h
      injection h with h
      subst h
      have hmS := scanType_versions_sorted "modules" (paths "modules") [] ontsM
        (by simp) hm
      have hf1 := classify_versions_sorted "modules" ontsM emptyIndexData
        (by simp [bucketLists, emptyIndexData]) hmS
      have hdS := scanType_versions_sorted "demo" (paths "demo") [] ontsD
        (by simp) hd
      have hf2 := classify_versions_sorted "demo" ontsD
        (ontsM.foldl (BuildIndex.classifyOne "modules") emptyIndexData) hf1 hdS
      intro l hl
      rw [show bucketLists (sortBuckets
            (ontsD.foldl (BuildIndex.classifyOne "demo")
              (ontsM.foldl (BuildIndex.classifyOne "modules") emptyIndexData))) =
          (bucketLists
            (ontsD.foldl (BuildIndex.classifyOne "demo")
              (ontsM.foldl (BuildIndex.classifyOne "modules") emptyIndexData))).map
            (List.insertionSort ontNameLe) from rfl] at hl
      obtain ⟨l0, hl0, rfl⟩ := List.mem_map.1 hl
      constructor
      · exact List.sorted_insertionSort ontNameLe l0
      · intro o ho
        exact hf2 l0 hl0 o ((List.mem_insertionSort ontNameLe).1 ho)

/-- Witness for C2 at a concrete aggregation: the bucket holding the single
`widgetX` entry is name-sorted, and that entry's version list is sorted
descending by string comparison. -/
theorem claim_C2_sorted_buckets_and_versions_witness :
    List.Sorted ontNameLe [(⟨"widgetX", ["1.0", "0.2", "0.10"]⟩ : Ontology)] ∧
    List.Sorted verGe ["1.0", "0.2", "0.10"] := by
  have h := claim_C2_sorted_buckets_and_versions.1
    (fun t =>
      if t = "modules" then
        ["ontology/modules/widgetX/0.2/widgetX.ttl",
         "ontology/modules/widgetX/0.10/widgetX.ttl",
         "ontology/modules/widgetX/1.0/widgetX.ttl"]
      else [])
    { core := [],
      other := [⟨"widgetX", ["1.0", "0.2", "0.10"]⟩],
      demo := [],
      actor := [],
      observation := [],
      process := [],
      resource := [],
      supplementary := [] }
    rfl
  have h2 := h [(⟨"widgetX", ["1.0", "0.2", "0.10"]⟩ : Ontology)] (by simp [bucketLists])
  exact ⟨h2.1, h2.2 (⟨"widgetX", ["1.0", "0.2", "0.10"]⟩ : Ontology) (by simp)⟩

/-- Characterization of a successful key computation: every keyed pair comes
from a directory with that key, and every directory contributes its key. -/
theorem versionKeys_some :
    ∀ (vds : List String) (keyed : List (String × List Int)),
      versionKeys vds = some keyed →
      (∀ p ∈ keyed, p.1 ∈ vds ∧ versionKey p.1 = some p.2) ∧
      (∀ d ∈ vds, ∃ k, versionKey d = some k ∧ (d, k) ∈ keyed) := by
  intro vds
  induction vds with
  | nil =>
    intro keyed h
    simp only [versionKeys, Option.some_inj] at h
    subst h
    exact ⟨by simp, by simp⟩
  | cons d rest ih =>
    intro keyed h
    rw [versionKeys] at h
    cases hk : versionKey d with
    | none => rw [hk] at h; cases h
    | some k =>
      rw [hk] at h
      cases hrest : versionKeys rest with
      | none => rw [hrest] at h; cases h
      | some ks =>
        rw [hrest] at h
        injection h with h
        subst h
        obtain ⟨ih1, ih2⟩ := ih ks hrest
        constructor
        · intro p hp
          rcases List.mem_cons.1 hp with rfl | hp
          · exact ⟨List.mem_cons_self _ _, hk⟩
          · obtain ⟨h1, h2⟩ := ih1 p hp
            exact ⟨List.mem_cons_of_mem _ h1, h2⟩
        · intro x hx
          rcases List.mem_cons.1 hx with rfl | hx
          · exact ⟨k, hk, List.mem_cons_self _ _⟩
          · obtain ⟨kx, hkx, hmem⟩ := ih2 x hx
            exact ⟨kx, hkx, List.mem_cons_of_mem _ hmem⟩

/-- In a pairwise-ordered list, every element is the last one or relates to
it. -/
theorem pairwise_getLast? {α : Type} (R : α → α → Prop) :
    ∀ (l : List α) (p : α), List.Pairwise R l → l.getLast? = some p →
      ∀ q ∈ l, q = p ∨ R q p := by
  intro l
  induction l with
  | nil => intro p _ h; cases h
  | cons a t ih =>
    intro p hpw hlast q hq
    cases t with
    | nil =>
      simp only [List.getLast?_singleton, Option.some_inj] at hlast
      subst hlast
      simp only [List.mem_singleton] at hq
      exact Or.inl hq
    | cons b t' =>
      rw [List.getLast?_cons_cons] at hlast
      rcases List.mem_cons.1 hq with rfl | hq
      · right
        have hp : p ∈ b :: t' := List.mem_of_getLast?_eq_some hlast
        exact (List.pairwise_cons.1 hpw).1 p hp
      · exact ih p (List.pairwise_cons.1 hpw).2 hlast q hq

/-- The directory selected by `version_dirs[-1]` is a considered directory
whose numeric key is maximal under the integer-tuple order. -/
theorem latestSelect_max :
    ∀ (names : List String) (v : String),
      latestSelect names = .ok (some v) →
      v ∈ names ∧ isVersionDirName v = true ∧
      ∃ kv, versionKey v = some kv ∧
        ∀ d ∈ names.filter isVersionDirName,
          ∃ kd, versionKey d = some kd ∧ intListLe kd kv = true := by
  intro names v h
  unfold latestSelect at h
  by_cases hempty : (names.filter isVersionDirName).isEmpty
  · rw [if_pos hempty] at h
    cases h
  · rw [if_neg hempty] at h
    cases hkeys : versionKeys (names.filter isVersionDirName) with
    | none => rw [hkeys] at h; cases h
    | some keyed =>
      rw [hkeys] at h
      injection h with h
      obtain ⟨p, hplast, hpv⟩ := Option.map_eq_some'.1 h
      have hsorted : List.Pairwise keyedLe (keyed.insertionSort keyedLe) :=
        List.sorted_insertionSort keyedLe keyed
      have hpmem : p ∈ keyed.insertionSort keyedLe :=
        List.mem_of_getLast?_eq_some hplast
      have hpkeyed : p ∈ keyed := (List.mem_insertionSort keyedLe).1 hpmem
      obtain ⟨hchar, hall⟩ := versionKeys_some (names.filter isVersionDirName) keyed hkeys
      obtain ⟨hpin, hpkey⟩ := hchar p hpkeyed
      subst hpv
      refine ⟨(List.mem_filter.1 hpin).1, (List.mem_filter.1 hpin).2, p.2, hpkey, ?_⟩
      intro d hd
      obtain ⟨kd, hkd, hdkeyed⟩ := hall d hd
      refine ⟨kd, hkd, ?_⟩
      have hdmem : (d, kd) ∈ keyed.insertionSort keyedLe :=
        (List.mem_insertionSort keyedLe).2 hdkeyed
      rcases pairwise_getLast? keyedLe (keyed.insertionSort keyedLe) p hsorted hplast
          (d, kd) hdmem with heq | hle
      · rw [show kd = p.2 from congrArg Prod.snd heq]
        exact intListLe_refl p.2
      · exact hle

/-- C3: the latest-folder step orders a module's version directories by the
integer tuples obtained from splitting each name on `.` — the selected
directory always carries a maximal numeric key among the considered ones —
and, with version directories `0.2`, `0.10`, `1.0`, selects `1.0` and
replaces any pre-existing `latest` entry with a copy of `1.0`'s tree; the
order is numeric, not string order: among `0.2` and `0.10` it selects
`0.10`, the opposite of the string comparison used by the version-list
sort. -/
theorem claim_C3_latest_numeric_selection :
    latestStep [("0.2", (0 : Nat)), ("0.10", 1), ("1.0", 2), ("latest", 9)] =
      .ok [("0.2", 0), ("0.10", 1), ("1.0", 2), ("latest", 2)] ∧
    latestSelect ["0.2", "0.10", "1.0"] = .ok (some "1.0") ∧
    (latestSelect ["0.2", "0.10"] = .ok (some "0.10") ∧
      sortVersionsDesc ["0.2", "0.10"] = ["0.2", "0.10"]) ∧
    (∀ (names : List String) (v : String),
      latestSelect names = .ok (some v) →
      v ∈ names ∧ isVersionDirName v = true ∧
      ∃ kv, versionKey v = some kv ∧
        ∀ d ∈ names.filter isVersionDirName,
          ∃ kd, versionKey d = some kd ∧ intListLe kd kv = true) :=
  ⟨rfl, rfl, ⟨rfl, rfl⟩, latestSelect_max⟩

/-- Witness for C3 at a concrete input: the selected directory `1.0` is a
considered version directory of `["0.2", "0.10", "1.0"]` with a maximal
numeric key. -/
theorem claim_C3_latest_numeric_selection_witness :
    "1.0" ∈ ["0.2", "0.10", "1.0"] ∧ isVersionDirName "1.0" = true ∧
    ∃ kv, versionKey "1.0" = some kv ∧
      ∀ d ∈ ["0.2", "0.10", "1.0"].filter isVersionDirName,
        ∃ kd, versionKey d = some kd ∧ intListLe kd kv = true :=
  claim_C3_latest_numeric_selection.2.2.2 ["0.2", "0.10", "1.0"] "1.0" rfl

/-- A single invalid dot-separated part makes the key computation raise. -/
theorem versionKeys_none :
    ∀ (vds : List String), (∃ d ∈ vds, versionKey d = none) →
      versionKeys vds = none := by
  intro vds
  induction vds with
  | nil =>
    intro h
    obtain ⟨d, hd, _⟩ := h
    simp at hd
  | cons d rest ih =>
    intro h
    rw [versionKeys]
    obtain ⟨x, hx, hxk⟩ := h
    rcases List.mem_cons.1 hx with rfl | hx
    · rw [hxk]
    · cases hk : versionKey d with
      | none => rfl
      | some k => rw [ih ⟨x, hx, hxk⟩]

/-- When every considered directory's parts parse, the key computation
succeeds. -/
theorem versionKeys_total :
    ∀ (vds : List String), (∀ d ∈ vds, ∃ k, versionKey d = some k) →
      ∃ keyed, versionKeys vds = some keyed := by
  intro vds
  induction vds with
  | nil => intro _; exact ⟨[], rfl⟩
  | cons d rest ih =>
    intro h
    obtain ⟨k, hk⟩ := h d (List.mem_cons_self d rest)
    obtain ⟨ks, hks⟩ := ih (fun x hx => h x (List.mem_cons_of_mem d hx))
    exact ⟨(d, k) :: ks, by rw [versionKeys, hk, hks]⟩

/-- Counterexample to C10 as stated: the directory name `1.-2` begins with
a digit and is not `latest`, so it is considered, and its dot-separated
part `-2` is not an unsigned integer — yet the latest-folder step raises no
`ValueError`: Python's `int` accepts the signed string `-2`, and the step
completes normally, copying `1.-2` to `latest`. -/
theorem claim_C10_counterexample :
    isVersionDirName "1.-2" = true ∧
    latestStep [("1.-2", (0 : Nat))] = .ok [("1.-2", 0), ("latest", 0)] ∧
    pyInt "-2" = some (-2) :=
  ⟨rfl, rfl, rfl⟩

/-- C10 (amended): the latest-folder step only considers subdirectories
whose name begins with a digit and is not `latest`, and it raises an
unhandled `ValueError` — aborting the run — whenever a considered directory
name has a dot-separated part that Python's `int` rejects (such as `0-rc`
or `1a`; `int` does accept signed or whitespace-padded integer strings);
it is total exactly under the precondition that every dot-separated part of
every considered name parses as a Python integer. -/
theorem claim_C10_latest_considered_and_valueerror :
    (∀ (names : List String) (d : String),
      d ∈ names.filter isVersionDirName ↔
        d ∈ names ∧ d ≠ "latest" ∧ headIsDigit d = true) ∧
    (∀ (α : Type) (entries : List (String × α)),
      (∃ d ∈ (entries.map Prod.fst).filter isVersionDirName, versionKey d = none) →
      latestStep entries = .error .valueError) ∧
    (∀ (α : Type) (entries : List (String × α)),
      (∀ d ∈ (entries.map Prod.fst).filter isVersionDirName, ∃ k, versionKey d = some k) →
      ∃ res, latestStep entries = .ok res) ∧
    (versionKey "1.0-rc" = none ∧
      latestStep [("1.0-rc", (0 : Nat))] = .error .valueError ∧
      versionKey "0.1a" = none ∧
      latestStep [("0.1a", (0 : Nat))] = .error .valueError) := by
  refine ⟨?_, ?_, ?_, rfl, rfl, rfl, rfl⟩
  · intro names d
    rw [List.mem_filter]
    simp [isVersionDirName, and_assoc]
  · intro α entries hbad
    unfold latestStep
    have hsel : latestSelect (entries.map Prod.fst) = .error .valueError := by
      unfold latestSelect
      have hne : ¬ ((entries.map Prod.fst).filter isVersionDirName).isEmpty = true := by
        obtain ⟨d, hd, _⟩ := hbad
        simp only [List.isEmpty_iff]
        exact List.ne_nil_of_mem hd
      rw [if_neg hne, versionKeys_none _ hbad]
    rw [hsel]
  · intro α entries hgood
    unfold latestStep
    by_cases hempty : ((entries.map Prod.fst).filter isVersionDirName).isEmpty
    · have hsel : latestSelect (entries.map Prod.fst) = .ok none := by
        unfold latestSelect
        rw [if_pos hempty]
      rw [hsel]
      exact ⟨entries, rfl⟩
    · obtain ⟨keyed, hkeyed⟩ := versionKeys_total _ hgood
      have hsel : latestSelect (entries.map Prod.fst) =
          .ok ((keyed.insertionSort keyedLe).getLast?.map (fun p => p.1)) := by
        unfold latestSelect
        rw [if_neg hempty, hkeyed]
      rw [hsel]
      cases hlast : (keyed.insertionSort keyedLe).getLast?.map (fun p => p.1) with
      | none => exact ⟨entries, rfl⟩
      | some v =>
        show ∃ res, (match entries.find? (fun p => p.1 == v) with
          | some pv =>
            Except.ok (entries.filter (fun p => p.1 != "latest") ++ [("latest", pv.2)])
          | none => Except.ok entries) = Except.ok res
        cases hfind : entries.find? (fun p => p.1 == v) with
        | some pv => exact ⟨_, rfl⟩
        | none => exact ⟨entries, rfl⟩

/-- Witness for C10 (amended) at concrete inputs: a module directory with
the considered name `1.0-rc` aborts with `ValueError`, while one whose
considered name is `0.1` completes. -/
theorem claim_C10_latest_considered_and_valueerror_witness :
    latestStep [("1.0-rc", (0 : Nat))] = .error .valueError ∧
    ∃ res, latestStep [("0.1", (0 : Nat)), ("latest", 1)] = .ok res :=
  ⟨claim_C10_latest_considered_and_valueerror.2.1 Nat [("1.0-rc", 0)]
    ⟨"1.0-rc", by decide, rfl⟩,
   claim_C10_latest_considered_and_valueerror.2.2.1 Nat [("0.1", 0), ("latest", 1)]
    (by
      intro d hd
      simp only [List.map_cons, List.map_nil] at hd
      have h1 := List.mem_filter.1 hd
      rcases List.mem_cons.1 h1.1 with rfl | h2
      · exact ⟨[0, 1], rfl⟩
      · simp only [List.mem_singleton] at h2
        subst h2
        exact absurd h1.2 (by decide))⟩
